import Mathlib

/-
  Verification of the `yarn version check` command
  (packages/plugin-version/sources/commands/version/check.tsx).

  Shallow embedding: the classifier (`fetchWorkspacesStatus`), the
  dependency-propagation engine (`fetchUndecidedDependentWorkspaces`),
  the interactive decision map (`useDecisions` over a JavaScript `Map`,
  which preserves insertion order), the strategy cycling
  (`useListInput` plus the strategy lists of the `Undecided` component),
  and the finalization / report tails of `executeInteractive` and
  `executeStandard`.

  JavaScript values read off `manifest.raw` are modelled by `JsValue`
  (one nesting level is enough: the code only reads
  `raw.nextVersion`, `raw.version`, `raw.nextVersion.nonce` and
  `raw.nextVersion.semver`).  Machine maps (`Map`, `Set`) are modelled
  by association lists / plain lists with the reference-identity
  semantics noted at each definition.  Git access and manifest parsing
  are collaborators: they enter as plain function arguments
  (`prev : Workspace → Option Manifest` stands for reading the manifest
  at the baseline revision, `none` meaning the file did not exist).
-/

set_option maxHeartbeats 1000000

namespace VersionCheck

/-- The bump decisions of the source: type Decision at line 9 of check.tsx. -/
inductive Decision
  | undecided
  | decline
  | major
  | minor
  | patch
  | prerelease
deriving DecidableEq, Repr

/-- A JSON value sitting in a field of a manifest object (`nonce`, `semver`, ...).
`compound` stands for any object or array value (the code only asks `typeof`,
which is neither string nor number for those). `undefVal` is JavaScript
`undefined` (absent field). -/
inductive JsField
  | undefVal
  | null
  | bool (b : Bool)
  | num (n : Int)
  | str (s : String)
  | compound
deriving DecidableEq, Repr

/-- A JSON value at the top of `manifest.raw` (`nextVersion`, `version`).
`obj` carries its fields; numbers restricted to integers (nonces and version
strings in manifests are strings or integer counters). -/
inductive JsValue
  | undefVal
  | null
  | bool (b : Bool)
  | num (n : Int)
  | str (s : String)
  | obj (fields : List (String × JsField))
  | arr
deriving DecidableEq, Repr

/-- JavaScript truthiness, used for the `manifest.raw.nextVersion && ...` guards. -/
def JsValue.truthy : JsValue → Bool
  | .undefVal => false
  | .null => false
  | .bool b => b
  | .num n => n != 0
  | .str s => s != ""
  | .obj _ => true
  | .arr => true

/-- JavaScript property access `v.k`: a field of an object, `undefined`
otherwise (the code only dereferences after a truthiness guard, so the
`null`/`undefined` TypeError case is unreachable on the guarded paths). -/
def JsValue.field : JsValue → String → JsField
  | .obj fields, k =>
    match fields.find? (fun p => p.1 == k) with
    | some p => p.2
    | none => .undefVal
  | _, _ => .undefVal

/-- JavaScript strict equality `===` between two manifest fields.
Primitives compare by value; objects and arrays compare by reference, and
two nodes of a parsed JSON document are always distinct references, so any
comparison involving an object or array yields `false` here. -/
def jsStrictEq : JsValue → JsValue → Bool
  | .undefVal, .undefVal => true
  | .null, .null => true
  | .bool a, .bool b => a == b
  | .num a, .num b => a == b
  | .str a, .str b => a == b
  | _, _ => false

/-- The slice of `manifest.raw` that check.tsx reads: the plain `version`
field and the `nextVersion` decision record. -/
structure RawJson where
  version : JsValue
  nextVersion : JsValue
deriving DecidableEq, Repr

/-- A workspace manifest: the parsed `version` (null means not independently
versioned), the `private` visibility flag, and the raw JSON. -/
structure Manifest where
  version : Option String
  isPrivate : Bool
  raw : RawJson
deriving DecidableEq, Repr

/-- A dependency descriptor, identified by its descriptorHash. -/
structure Descriptor where
  descriptorHash : Nat
deriving DecidableEq, Repr

/-- A workspace: its anchored locator hash (the identity used by the lookup
maps), its manifest, and its dependency descriptors
(`workspace.dependencies.values()`). -/
structure Workspace where
  locatorHash : Nat
  manifest : Manifest
  dependencies : List Descriptor
deriving DecidableEq, Repr

/-- The Status record of line 11: the three classification buckets. -/
structure Status where
  decided : List Workspace
  undecided : List Workspace
  declined : List Workspace
deriving DecidableEq, Repr

/-- The project snapshot used by the propagation engine:
`project.workspaces`, `project.storedResolutions` (descriptorHash to
locatorHash) and `project.storedPackages` (presence of a registered package
for a locator hash). -/
structure Project where
  workspaces : List Workspace
  storedResolutions : Nat → Option Nat
  storedPackages : Nat → Bool

/-- getNonce (lines 517-523): the string form of `raw.nextVersion.nonce` when
`nextVersion` is truthy and the nonce is a string or a number, null otherwise. -/
def getNonce (m : Manifest) : Option String :=
  if m.raw.nextVersion.truthy = true then
    match m.raw.nextVersion.field ("nonce") with
    | JsField.str s => some s
    | JsField.num n => some (toString n)
    | _ => none
  else none

/-- willBeReleased (lines 525-531).  Note: the third conjunct compares the
whole `raw.nextVersion` value with `raw.version` using strict equality, as
the source does (`manifest.raw.nextVersion !== manifest.raw.version`) --
it does not compare `nextVersion.semver` with `version`. -/
def willBeReleased (m : Manifest) : Bool :=
  m.raw.nextVersion.truthy &&
  (match m.raw.nextVersion.field ("semver") with
   | JsField.str _ => true
   | _ => false) &&
  !(jsStrictEq m.raw.nextVersion m.raw.version)

/-- fetchPreviousNonce (lines 507-515): if the baseline manifest existed,
its nonce, else null.  The git lookup collaborator is the `Option Manifest`
argument. -/
def fetchPreviousNonce : Option Manifest → Option String
  | some m => getNonce m
  | none => none

/-- fetchWorkspacesStatus (lines 365-392): classify each versioned workspace
as undecided (nonce unchanged), decided (nonce changed and willBeReleased),
or declined (nonce changed, not willBeReleased).  Versionless workspaces are
skipped.  `prev` is the baseline-manifest collaborator. -/
def fetchWorkspacesStatus : List Workspace → (Workspace → Option Manifest) → Status
  | [], _ => ⟨[], [], []⟩
  | w :: ws, prev =>
    let rest := fetchWorkspacesStatus ws prev
    if w.manifest.version = none then rest
    else if getNonce w.manifest = fetchPreviousNonce (prev w) then
      { rest with undecided := w :: rest.undecided }
    else if willBeReleased w.manifest = true then
      { rest with decided := w :: rest.decided }
    else
      { rest with declined := w :: rest.declined }

/-- Last-wins lookup by locator hash, modelling
`new Map(list.map(w => [w.anchoredLocator.locatorHash, w])).get(h)`
(a JavaScript Map constructor lets later entries override earlier ones). -/
def lookupHash : List Workspace → Nat → Option Workspace
  | [], _ => none
  | w :: ws, h =>
    match lookupHash ws h with
    | some d => some d
    | none => if w.locatorHash = h then some w else none

/-- `Map.has` on the same lookup map. -/
def hasHash (ws : List Workspace) (h : Nat) : Bool :=
  (lookupHash ws h).isSome

/-- The inner dependency loop of fetchUndecidedDependentWorkspaces
(lines 425-446) for one workspace `w`: resolve each descriptor
(assertion failure, modelled as `none`, when the resolution or the package
is not registered) and emit `(w, bumped)` for every dependency resolving
into the decided lookup. -/
def processDeps (decided : List Workspace) (proj : Project) (w : Workspace) :
    List Descriptor → Option (List (Workspace × Workspace))
  | [] => some []
  | d :: ds =>
    match proj.storedResolutions d.descriptorHash with
    | none => none
    | some res =>
      if proj.storedPackages res = true then
        (processDeps decided proj w ds).map (fun rest =>
          match lookupHash decided res with
          | some dep => (w, dep) :: rest
          | none => rest)
      else none

/-- The outer loop of fetchUndecidedDependentWorkspaces (lines 394-450) over
`project.workspaces`: skip workspaces already decided or declined (unless
listed in `incl`, the interactive override set), skip private and
versionless workspaces, then scan the dependencies. -/
def fudwGo (decided declined incl : List Workspace) (proj : Project) :
    List Workspace → Option (List (Workspace × Workspace))
  | [] => some []
  | w :: ws =>
    if w ∉ incl ∧ (hasHash declined w.locatorHash = true ∨ hasHash decided w.locatorHash = true) then
      fudwGo decided declined incl proj ws
    else if w.manifest.isPrivate = true then
      fudwGo decided declined incl proj ws
    else if w.manifest.version = none then
      fudwGo decided declined incl proj ws
    else
      (processDeps decided proj w w.dependencies).bind (fun ps =>
        (fudwGo decided declined incl proj ws).map (fun rest => ps ++ rest))

/-- fetchUndecidedDependentWorkspaces (lines 394-450).  `none` models the
assertion failures thrown on an unregistered resolution or package. -/
def fetchUndecidedDependentWorkspaces (decided declined : List Workspace)
    (proj : Project) (incl : List Workspace) : Option (List (Workspace × Workspace)) :=
  fudwGo decided declined incl proj proj.workspaces

/-- The interactive decision map (type Decisions at line 10): a JavaScript
Map from workspaces to decisions.  A JavaScript Map preserves insertion
order; setting an existing key updates the value in place, deleting and
re-adding moves the key to the end.  Modelled as an association list in
insertion order. -/
abbrev DecisionMap := List (Workspace × Decision)

/-- `Map.set`: update in place when the key exists, append otherwise. -/
def mapSet (m : DecisionMap) (w : Workspace) (d : Decision) : DecisionMap :=
  if m.any (fun p => p.1 == w) then
    m.map (fun p => if p.1 == w then (p.1, d) else p)
  else m ++ [(w, d)]

/-- `Map.delete`. -/
def mapDelete (m : DecisionMap) (w : Workspace) : DecisionMap :=
  m.filter (fun p => p.1 != w)

/-- setDecision of useDecisions (lines 142-151): store a non-undecided
decision, remove the entry when the decision is undecided. -/
def setDecision (m : DecisionMap) (w : Workspace) (d : Decision) : DecisionMap :=
  if d = Decision.undecided then mapDelete m w else mapSet m w d

/-- The decision map obtained by running a sequence of setDecision calls
starting from the empty map of useDecisions (line 140). -/
def applyOps (ops : List (Workspace × Decision)) : DecisionMap :=
  ops.foldl (fun m p => setDecision m p.1 p.2) []

/-- The read path `decisions.get(workspace) || 'undecided'` (lines 240, 250):
a workspace absent from the map reads as undecided. -/
def readDecision (m : DecisionMap) (w : Workspace) : Decision :=
  match m.find? (fun p => p.1 == w) with
  | some p => p.2
  | none => Decision.undecided

/-- The finalize loop of executeInteractive (lines 289-293): one external
apply invocation (`yarn version <decision> --deferred`) per map entry whose
decision is not undecided, iterating the map in its own (insertion) order. -/
def finalizeApplies (m : DecisionMap) : List (Workspace × Decision) :=
  m.filter (fun p => p.2 != Decision.undecided)

/-- renderForm's result (lines 257-283): `returnedValue` is assigned only by
the `return` keypress callback, so the session yields the decision map
exactly when the confirm key was pressed, and undefined otherwise. -/
def renderFormResult (confirmed : Bool) (decisions : DecisionMap) : Option DecisionMap :=
  if confirmed = true then some decisions else none

/-- The tail of executeInteractive (lines 285-293): return exit code 1 with
no apply invocations when the session was aborted, otherwise run the apply
loop (the command itself then returns undefined, i.e. exit code 0). -/
def executeInteractiveTail : Option DecisionMap → Nat × List (Workspace × Decision)
  | none => (1, [])
  | some decisions => (0, finalizeApplies decisions)

/-- executeStandard (lines 296-362), reduced to its decision content: one
classification pass, one propagation pass with an empty override set, one
reported error per undecided workspace and per propagated pair, no apply
invocations.  Modelled from the spec: the external StreamReport collaborator
turns "at least one error was reported" into a non-zero exit code and "no
error" into zero.  `none` models the propagation assertion failure. -/
def executeStandard (workspaces : List Workspace) (prev : Workspace → Option Manifest)
    (proj : Project) : Option (Nat × List (Workspace × Decision)) :=
  (fetchUndecidedDependentWorkspaces (fetchWorkspacesStatus workspaces prev).decided
      (fetchWorkspacesStatus workspaces prev).declined proj []).map
    (fun pairs =>
      (if 0 < (fetchWorkspacesStatus workspaces prev).undecided.length + pairs.length
       then 1 else 0, []))

/-- A semantic version, as far as the code observes it through the external
semver collaborator: `semver.prerelease(v)` is null exactly when the
prerelease identifier list is empty. -/
structure SemVer where
  major : Nat
  minor : Nat
  patch : Nat
  prereleaseIds : List String
deriving DecidableEq, Repr

/-- The legal strategy list of the Undecided component (lines 101-103):
the full six-entry list for a plain version, the restricted four-entry list
when the current version is already a prerelease. -/
def strategies (currentVersion : SemVer) : List Decision :=
  if currentVersion.prereleaseIds = [] then
    [Decision.undecided, Decision.decline, Decision.patch,
     Decision.minor, Decision.major, Decision.prerelease]
  else
    [Decision.undecided, Decision.decline, Decision.prerelease, Decision.major]

/-- JavaScript `Array.prototype.indexOf`: index of the first occurrence,
-1 when absent. -/
def jsIndexOf {α : Type} [DecidableEq α] : List α → α → Int
  | [], _ => -1
  | x :: xs, v =>
    if x = v then 0
    else
      let r := jsIndexOf xs v
      if r = -1 then -1 else r + 1

/-- The `plus` branch of useListInput (line 84):
`values[(index + 1) % values.length]`. -/
def cycleNext {α : Type} [DecidableEq α] (values : List α) (v : α) : Option α :=
  values.get? ((jsIndexOf values v + 1) % (values.length : Int)).toNat

/-- The `minus` branch of useListInput (line 81):
`values[(values.length + index - 1) % values.length]`. -/
def cyclePrev {α : Type} [DecidableEq α] (values : List α) (v : α) : Option α :=
  values.get? (((values.length : Int) + jsIndexOf values v - 1) % (values.length : Int)).toNat

/-
  Concrete fixtures used by the counterexamples and witnesses.
-/

/-- A raw manifest with no decision record. -/
def rawPlain : RawJson :=
  { version := JsValue.str ("1.0.0"), nextVersion := JsValue.undefVal }

/-- Workspace A: public, version 1.0.0, no dependencies. -/
def wA : Workspace :=
  { locatorHash := 1
    manifest := { version := some ("1.0.0"), isPrivate := false, raw := rawPlain }
    dependencies := [] }

/-- Workspace B: public, version 2.0.0, one dependency descriptor that
resolves to workspace A. -/
def wB : Workspace :=
  { locatorHash := 2
    manifest := { version := some ("2.0.0"), isPrivate := false
                  raw := { version := JsValue.str ("2.0.0"), nextVersion := JsValue.undefVal } }
    dependencies := [⟨11⟩] }

/-- A two-workspace project in which B depends on A (descriptor 11 resolves
to locator hash 1, and that package is registered). -/
def cexProj : Project :=
  { workspaces := [wA, wB]
    storedResolutions := fun dh => if dh = 11 then some 1 else none
    storedPackages := fun h => h == 1 }

/-- Decided set containing only A. -/
def cexDecidedSmall : List Workspace := [wA]

/-- Enlarged decided set containing A and B. -/
def cexDecidedBig : List Workspace := [wA, wB]

/-- A status whose undecided rows are, in declaration order, A then B. -/
def cexStatus : Status := ⟨[], [wA, wB], []⟩

/-- Manifest of a workspace on which a decline was recorded: the nonce
changed and the decision record's target version string equals the plain
version field. -/
def mDecl : Manifest :=
  { version := some ("1.0.0"), isPrivate := false
    raw := { version := JsValue.str ("1.0.0")
             nextVersion := JsValue.obj [(("nonce"), JsField.str ("b")),
                                         (("semver"), JsField.str ("1.0.0"))] } }

/-- The same workspace's manifest at the baseline: a different nonce. -/
def mDeclPrev : Manifest :=
  { version := some ("1.0.0"), isPrivate := false
    raw := { version := JsValue.str ("1.0.0")
             nextVersion := JsValue.obj [(("nonce"), JsField.str ("a")),
                                         (("semver"), JsField.str ("1.0.0"))] } }

/-- The declined workspace of the C1 failing input. -/
def wDecl : Workspace :=
  { locatorHash := 10, manifest := mDecl, dependencies := [] }

/-- Baseline-manifest collaborator for the C1 failing input. -/
def prevDecl : Workspace → Option Manifest := fun _ => some mDeclPrev

/-- An undecided workspace: version set, no decision record at all. -/
def wU : Workspace :=
  { locatorHash := 20, manifest := { version := some ("1.0.0"), isPrivate := false, raw := rawPlain }
    dependencies := [] }

/-- Baseline-manifest collaborator that finds no baseline manifest. -/
def prevNone : Workspace → Option Manifest := fun _ => none

/-- An empty project. -/
def proj0 : Project :=
  { workspaces := [], storedResolutions := fun _ => none, storedPackages := fun _ => false }

/-- A manifest whose decision-record nonce is the number 42. -/
def mNum : Manifest :=
  { version := some ("1.0.0"), isPrivate := false
    raw := { version := JsValue.str ("1.0.0")
             nextVersion := JsValue.obj [(("nonce"), JsField.num 42)] } }

/-- A manifest whose decision-record nonce is the string "42". -/
def mStr : Manifest :=
  { version := some ("1.0.0"), isPrivate := false
    raw := { version := JsValue.str ("1.0.0")
             nextVersion := JsValue.obj [(("nonce"), JsField.str ("42"))] } }

/-- A workspace carrying the numeric-nonce manifest. -/
def wNum : Workspace :=
  { locatorHash := 30, manifest := mNum, dependencies := [] }

/-- A prerelease version, 1.0.0-alpha.1. -/
def vPre : SemVer := ⟨1, 0, 0, [("alpha"), ("1")]⟩

/-- A plain version, 1.0.0. -/
def vPlain : SemVer := ⟨1, 0, 0, []⟩

/-
  Helper lemmas about the lookup maps.
-/

theorem lookupHash_sound : ∀ (ws : List Workspace) (h : Nat) (d : Workspace),
    lookupHash ws h = some d → d ∈ ws ∧ d.locatorHash = h := by
  intro ws
  induction ws with
  | nil => intro h d hd; simp [lookupHash] at hd
  | cons w ws ih =>
    intro h d hd
    simp only [lookupHash] at hd
    cases hrec : lookupHash ws h with
    | some d' =>
      simp only [hrec] at hd
      injection hd with hd
      obtain ⟨hm, hh⟩ := ih h d' hrec
      subst hd
      exact ⟨List.mem_cons_of_mem _ hm, hh⟩
    | none =>
      simp only [hrec] at hd
      by_cases hw : w.locatorHash = h
      · rw [if_pos hw] at hd
        injection hd with h1
        subst h1
        exact ⟨List.mem_cons_self _ _, hw⟩
      · rw [if_neg hw] at hd
        exact absurd hd (by simp)

theorem lookupHash_isSome_of_mem : ∀ (ws : List Workspace) (h : Nat) (w : Workspace),
    w ∈ ws → w.locatorHash = h → (lookupHash ws h).isSome = true := by
  intro ws
  induction ws with
  | nil => intro h w hm; simp at hm
  | cons x ws ih =>
    intro h w hm hh
    simp only [lookupHash]
    cases hrec : lookupHash ws h with
    | some d => simp
    | none =>
      rcases List.mem_cons.mp hm with h1 | h2
      · subst h1; rw [if_pos hh]; simp
      · have := ih h w h2 hh
        rw [hrec] at this
        simp at this

theorem hasHash_of_mem {ws : List Workspace} {w : Workspace} (hm : w ∈ ws) :
    hasHash ws w.locatorHash = true :=
  lookupHash_isSome_of_mem ws _ w hm rfl

theorem hasHash_exists {ws : List Workspace} {h : Nat} (hh : hasHash ws h = true) :
    ∃ d, lookupHash ws h = some d ∧ d ∈ ws ∧ d.locatorHash = h := by
  unfold hasHash at hh
  obtain ⟨d, hd⟩ := Option.isSome_iff_exists.mp hh
  exact ⟨d, hd, lookupHash_sound ws h d hd⟩

theorem hasHash_mono {d1 d2 : List Workspace} (hsub : ∀ w ∈ d1, w ∈ d2) {h : Nat}
    (hh : hasHash d1 h = true) : hasHash d2 h = true := by
  obtain ⟨d, -, hm, hh'⟩ := hasHash_exists hh
  subst hh'
  exact hasHash_of_mem (hsub d hm)

theorem lookupHash_mono {d1 d2 : List Workspace} {res : Nat} {dep : Workspace}
    (hsub : ∀ w ∈ d1, w ∈ d2)
    (hinj : ∀ x ∈ d2, ∀ y ∈ d2, x.locatorHash = y.locatorHash → x = y)
    (hl : lookupHash d1 res = some dep) : lookupHash d2 res = some dep := by
  obtain ⟨hm, hh⟩ := lookupHash_sound d1 res dep hl
  have hm2 : dep ∈ d2 := hsub dep hm
  have hs : (lookupHash d2 res).isSome = true := lookupHash_isSome_of_mem d2 res dep hm2 hh
  obtain ⟨d, hd⟩ := Option.isSome_iff_exists.mp hs
  obtain ⟨hdm, hdh⟩ := lookupHash_sound d2 res d hd
  have hde : d = dep := hinj d hdm dep hm2 (by rw [hdh, hh])
  rw [hd, hde]

/-
  Inversion of the propagation engine: everything it emits passed the
  private / version guards and came from a direct resolved dependency edge
  into the decided lookup.
-/

theorem processDeps_mem (decided : List Workspace) (proj : Project) (w : Workspace) :
    ∀ (ds : List Descriptor) (ps : List (Workspace × Workspace)),
      processDeps decided proj w ds = some ps → ∀ a b, (a, b) ∈ ps →
      a = w ∧ ∃ d, d ∈ ds ∧ ∃ res,
        proj.storedResolutions d.descriptorHash = some res ∧
        lookupHash decided res = some b := by
  intro ds
  induction ds with
  | nil =>
    intro ps hps a b hab
    simp only [processDeps] at hps
    injection hps with h1
    subst h1
    simp at hab
  | cons d ds ih =>
    intro ps hps a b hab
    simp only [processDeps] at hps
    cases hres : proj.storedResolutions d.descriptorHash with
    | none =>
      simp only [hres] at hps
      exact Option.noConfusion hps
    | some res =>
      simp only [hres] at hps
      by_cases hpk : proj.storedPackages res = true
      · rw [if_pos hpk] at hps
        cases hrec : processDeps decided proj w ds with
        | none => rw [hrec] at hps; simp at hps
        | some rest =>
          simp only [hrec, Option.map_some', Option.some.injEq] at hps
          cases hl : lookupHash decided res with
          | some dep =>
            simp only [hl] at hps
            subst hps
            rcases List.mem_cons.mp hab with hab | hab
            · obtain ⟨ha, hb⟩ := Prod.mk.injEq .. ▸ hab
              subst ha
              subst hb
              exact ⟨rfl, d, List.mem_cons_self _ _, res, hres, hl⟩
            · obtain ⟨ha, d', hd', hrest⟩ := ih rest hrec a b hab
              exact ⟨ha, d', List.mem_cons_of_mem _ hd', hrest⟩
          | none =>
            simp only [hl] at hps
            subst hps
            obtain ⟨ha, d', hd', hrest⟩ := ih rest hrec a b hab
            exact ⟨ha, d', List.mem_cons_of_mem _ hd', hrest⟩
      · rw [if_neg hpk] at hps
        simp at hps

theorem fudwGo_mem (decided declined incl : List Workspace) (proj : Project) :
    ∀ (l : List Workspace) (ps : List (Workspace × Workspace)),
      fudwGo decided declined incl proj l = some ps → ∀ a b, (a, b) ∈ ps →
      a ∈ l ∧ a.manifest.isPrivate = false ∧ a.manifest.version ≠ none ∧
      ∃ d, d ∈ a.dependencies ∧ ∃ res,
        proj.storedResolutions d.descriptorHash = some res ∧
        lookupHash decided res = some b := by
  intro l
  induction l with
  | nil =>
    intro ps hps a b hab
    simp only [fudwGo] at hps
    injection hps with h1
    subst h1
    simp at hab
  | cons w ws ih =>
    intro ps hps a b hab
    simp only [fudwGo] at hps
    by_cases h1 : w ∉ incl ∧
        (hasHash declined w.locatorHash = true ∨ hasHash decided w.locatorHash = true)
    · rw [if_pos h1] at hps
      obtain ⟨hm, rest⟩ := ih ps hps a b hab
      exact ⟨List.mem_cons_of_mem _ hm, rest⟩
    · rw [if_neg h1] at hps
      by_cases h2 : w.manifest.isPrivate = true
      · rw [if_pos h2] at hps
        obtain ⟨hm, rest⟩ := ih ps hps a b hab
        exact ⟨List.mem_cons_of_mem _ hm, rest⟩
      · rw [if_neg h2] at hps
        by_cases h3 : w.manifest.version = none
        · rw [if_pos h3] at hps
          obtain ⟨hm, rest⟩ := ih ps hps a b hab
          exact ⟨List.mem_cons_of_mem _ hm, rest⟩
        · rw [if_neg h3] at hps
          cases hpd : processDeps decided proj w w.dependencies with
          | none => rw [hpd] at hps; simp at hps
          | some pds =>
            rw [hpd] at hps
            cases hrec : fudwGo decided declined incl proj ws with
            | none => rw [hrec] at hps; simp at hps
            | some rest =>
              rw [hrec] at hps
              have hps' : some (pds ++ rest) = some ps := hps
              injection hps' with h4
              subst h4
              rcases List.mem_append.mp hab with hm | hm
              · obtain ⟨ha, hd⟩ :=
                  processDeps_mem decided proj w w.dependencies pds hpd a b hm
                subst ha
                have hfalse : a.manifest.isPrivate = false := by
                  cases hb : a.manifest.isPrivate
                  · rfl
                  · exact absurd hb h2
                exact ⟨List.mem_cons_self _ _, hfalse, h3, hd⟩
              · obtain ⟨hmem, rest'⟩ := ih rest hrec a b hm
                exact ⟨List.mem_cons_of_mem _ hmem, rest'⟩

/-- Claim C5: propagation never emits a pair whose dependent workspace is
private or has a null version. -/
theorem C5_no_private_or_versionless_dependent
    (decided declined : List Workspace) (proj : Project) (incl : List Workspace)
    (ps : List (Workspace × Workspace))
    (hps : fetchUndecidedDependentWorkspaces decided declined proj incl = some ps)
    (a b : Workspace) (hab : (a, b) ∈ ps) :
    a.manifest.isPrivate = false ∧ a.manifest.version ≠ none := by
  obtain ⟨-, h1, h2, -⟩ := fudwGo_mem decided declined incl proj proj.workspaces ps hps a b hab
  exact ⟨h1, h2⟩

/-- Witness for C5 at a concrete run that emits the pair (wB, wA). -/
theorem C5_witness_concrete :
    wB.manifest.isPrivate = false ∧ wB.manifest.version ≠ none :=
  C5_no_private_or_versionless_dependent cexDecidedSmall [] cexProj [] [(wB, wA)]
    (by decide) wB wA (by decide)

/-- Claim C6: a pair (W, D) is emitted only when W has a direct dependency
edge whose resolution is D's identity in the decided lookup -- propagation
is a single hop, never transitive, within one invocation. -/
theorem C6_single_hop_direct_edge
    (decided declined : List Workspace) (proj : Project) (incl : List Workspace)
    (ps : List (Workspace × Workspace))
    (hps : fetchUndecidedDependentWorkspaces decided declined proj incl = some ps)
    (a b : Workspace) (hab : (a, b) ∈ ps) :
    ∃ d, d ∈ a.dependencies ∧ ∃ res,
      proj.storedResolutions d.descriptorHash = some res ∧
      lookupHash decided res = some b := by
  obtain ⟨-, -, -, hd⟩ := fudwGo_mem decided declined incl proj proj.workspaces ps hps a b hab
  exact hd

/-- Witness for C6 at the same concrete run. -/
theorem C6_witness_concrete :
    ∃ d, d ∈ wB.dependencies ∧ ∃ res,
      cexProj.storedResolutions d.descriptorHash = some res ∧
      lookupHash cexDecidedSmall res = some wA :=
  C6_single_hop_direct_edge cexDecidedSmall [] cexProj [] [(wB, wA)]
    (by decide) wB wA (by decide)

/-- Claim C1, failing input: the nonce changed and the decision record's
target version string ("1.0.0") is equal to the plain version field, so the
claim requires the workspace to be classified declined; the code classifies
it decided, because willBeReleased compares the whole nextVersion object
with the version string (never strictly equal in JavaScript) instead of
comparing nextVersion.semver with it. -/
theorem C1_decline_with_equal_target_classified_decided :
    getNonce wDecl.manifest ≠ fetchPreviousNonce (prevDecl wDecl) ∧
    wDecl.manifest.raw.nextVersion.field ("semver") = JsField.str ("1.0.0") ∧
    wDecl.manifest.raw.version = JsValue.str ("1.0.0") ∧
    fetchWorkspacesStatus [wDecl] prevDecl = ⟨[wDecl], [], []⟩ := by decide

/-- Claim C4: an unconfirmed (aborted) interactive session makes the command
return exit code 1 with no apply invocation, and apply invocations happen
only when the session confirmed. -/
theorem C4_abort_exit_one_no_apply (confirmed : Bool) (decisions : DecisionMap) :
    (confirmed = false →
      executeInteractiveTail (renderFormResult confirmed decisions) = (1, [])) ∧
    ((executeInteractiveTail (renderFormResult confirmed decisions)).2 ≠ [] →
      confirmed = true) := by
  cases confirmed <;> simp [renderFormResult, executeInteractiveTail]

/-- Witness for C4: the aborted session concretely. -/
theorem C4_abort_witness : executeInteractiveTail (renderFormResult false []) = (1, []) :=
  (C4_abort_exit_one_no_apply false []).1 rfl

/-- Claim C7: the legal strategy list is exactly the restricted four-entry
list for prerelease versions and the six-entry list otherwise, and the
left/right cycling wraps around both ends of the list. -/
theorem C7_strategy_lists_and_wrap (v : SemVer) :
    (v.prereleaseIds ≠ [] →
      strategies v = [Decision.undecided, Decision.decline, Decision.prerelease, Decision.major] ∧
      cycleNext (strategies v) Decision.major = some Decision.undecided ∧
      cyclePrev (strategies v) Decision.undecided = some Decision.major) ∧
    (v.prereleaseIds = [] →
      strategies v = [Decision.undecided, Decision.decline, Decision.patch,
        Decision.minor, Decision.major, Decision.prerelease] ∧
      cycleNext (strategies v) Decision.prerelease = some Decision.undecided ∧
      cyclePrev (strategies v) Decision.undecided = some Decision.prerelease) := by
  constructor
  · intro h
    have hs : strategies v =
        [Decision.undecided, Decision.decline, Decision.prerelease, Decision.major] := by
      unfold strategies; rw [if_neg h]
    rw [hs]
    exact ⟨rfl, by decide, by decide⟩
  · intro h
    have hs : strategies v = [Decision.undecided, Decision.decline, Decision.patch,
        Decision.minor, Decision.major, Decision.prerelease] := by
      unfold strategies; rw [if_pos h]
    rw [hs]
    exact ⟨rfl, by decide, by decide⟩

/-- Witness for C7 at the concrete versions 1.0.0-alpha.1 and 1.0.0. -/
theorem C7_strategy_witness :
    (strategies vPre = [Decision.undecided, Decision.decline, Decision.prerelease, Decision.major] ∧
      cycleNext (strategies vPre) Decision.major = some Decision.undecided ∧
      cyclePrev (strategies vPre) Decision.undecided = some Decision.major) ∧
    (strategies vPlain = [Decision.undecided, Decision.decline, Decision.patch,
        Decision.minor, Decision.major, Decision.prerelease] ∧
      cycleNext (strategies vPlain) Decision.prerelease = some Decision.undecided ∧
      cyclePrev (strategies vPlain) Decision.undecided = some Decision.prerelease) :=
  ⟨(C7_strategy_lists_and_wrap vPre).1 (by decide),
   (C7_strategy_lists_and_wrap vPlain).2 rfl⟩

/-- Claim C9: report mode exits non-zero exactly when the undecided set is
non-empty or the single propagation pass (empty override set) emits at
least one pair, and performs no apply invocation. -/
theorem C9_report_exit_iff (ws : List Workspace) (prev : Workspace → Option Manifest)
    (proj : Project) (code : Nat) (applies : List (Workspace × Decision))
    (h : executeStandard ws prev proj = some (code, applies)) :
    ∃ pairs, fetchUndecidedDependentWorkspaces (fetchWorkspacesStatus ws prev).decided
        (fetchWorkspacesStatus ws prev).declined proj [] = some pairs ∧
      (code ≠ 0 ↔ ((fetchWorkspacesStatus ws prev).undecided ≠ [] ∨ pairs ≠ [])) ∧
      applies = [] := by
  unfold executeStandard at h
  cases hf : fetchUndecidedDependentWorkspaces (fetchWorkspacesStatus ws prev).decided
      (fetchWorkspacesStatus ws prev).declined proj [] with
  | none => rw [hf] at h; simp at h
  | some pairs =>
    rw [hf] at h
    simp only [Option.map_some', Option.some.injEq, Prod.mk.injEq] at h
    obtain ⟨hcode, happ⟩ := h
    refine ⟨pairs, rfl, ?_, happ.symm⟩
    subst hcode
    constructor
    · intro hc
      by_contra hn
      push_neg at hn
      obtain ⟨hu, hp⟩ := hn
      apply hc
      rw [if_neg]
      simp [hu, hp]
    · intro hor
      have hpos : 0 < (fetchWorkspacesStatus ws prev).undecided.length + pairs.length := by
        rcases hor with h | h
        · have := List.length_pos.mpr h; omega
        · have := List.length_pos.mpr h; omega
      rw [if_pos hpos]
      simp

/-- Witness for C9: a concrete run with one undecided workspace, exit 1,
empty apply list. -/
theorem C9_report_witness :
    ∃ pairs, fetchUndecidedDependentWorkspaces (fetchWorkspacesStatus [wU] prevNone).decided
        (fetchWorkspacesStatus [wU] prevNone).declined proj0 [] = some pairs ∧
      ((1 : Nat) ≠ 0 ↔ ((fetchWorkspacesStatus [wU] prevNone).undecided ≠ [] ∨ pairs ≠ [])) ∧
      ([] : List (Workspace × Decision)) = [] :=
  C9_report_exit_iff [wU] prevNone proj0 1 [] (by decide)

/-- One undecided workspace whose nonce did not change since baseline. -/
theorem fetchWorkspacesStatus_singleton_undecided (w : Workspace)
    (prev : Workspace → Option Manifest)
    (hv : ¬ w.manifest.version = none)
    (hn : getNonce w.manifest = fetchPreviousNonce (prev w)) :
    fetchWorkspacesStatus [w] prev = ⟨[], [w], []⟩ := by
  simp only [fetchWorkspacesStatus]
  rw [if_neg hv, if_pos hn]

/-- Claim C10: getNonce returns the string form of a string or numeric
nonce under a truthy nextVersion, null for every other shape, and therefore
a numeric nonce in one snapshot and its decimal string form in the other
compare equal and classify the workspace as undecided. -/
theorem C10_nonce_normalization :
    (∀ m : Manifest, m.raw.nextVersion.truthy = false → getNonce m = none) ∧
    (∀ (m : Manifest) (s : String), m.raw.nextVersion.truthy = true →
      m.raw.nextVersion.field ("nonce") = JsField.str s → getNonce m = some s) ∧
    (∀ (m : Manifest) (n : Int), m.raw.nextVersion.truthy = true →
      m.raw.nextVersion.field ("nonce") = JsField.num n → getNonce m = some (toString n)) ∧
    (∀ m : Manifest, (∀ s, m.raw.nextVersion.field ("nonce") ≠ JsField.str s) →
      (∀ n, m.raw.nextVersion.field ("nonce") ≠ JsField.num n) → getNonce m = none) ∧
    (∀ (w : Workspace) (pm : Manifest) (n : Int),
      ¬ w.manifest.version = none →
      w.manifest.raw.nextVersion.truthy = true →
      w.manifest.raw.nextVersion.field ("nonce") = JsField.num n →
      pm.raw.nextVersion.truthy = true →
      pm.raw.nextVersion.field ("nonce") = JsField.str (toString n) →
      fetchWorkspacesStatus [w] (fun _ => some pm) = ⟨[], [w], []⟩) := by
  have hstr : ∀ (m : Manifest) (s : String), m.raw.nextVersion.truthy = true →
      m.raw.nextVersion.field ("nonce") = JsField.str s → getNonce m = some s := by
    intro m s ht hn
    unfold getNonce
    rw [if_pos ht, hn]
  have hnum : ∀ (m : Manifest) (n : Int), m.raw.nextVersion.truthy = true →
      m.raw.nextVersion.field ("nonce") = JsField.num n → getNonce m = some (toString n) := by
    intro m n ht hn
    unfold getNonce
    rw [if_pos ht, hn]
  refine ⟨?_, hstr, hnum, ?_, ?_⟩
  · intro m hm
    unfold getNonce
    rw [if_neg (by simp [hm])]
  · intro m hs hn
    unfold getNonce
    by_cases ht : m.raw.nextVersion.truthy = true
    · rw [if_pos ht]
      cases hf : m.raw.nextVersion.field ("nonce") with
      | str s => exact absurd hf (hs s)
      | num n => exact absurd hf (hn n)
      | undefVal => rfl
      | null => rfl
      | bool b => rfl
      | compound => rfl
    · rw [if_neg ht]
  · intro w pm n hv ht hn ht' hn'
    apply fetchWorkspacesStatus_singleton_undecided w _ hv
    have h1 : getNonce w.manifest = some (toString n) := hnum w.manifest n ht hn
    have h2 : getNonce pm = some (toString n) := hstr pm (toString n) ht' hn'
    show getNonce w.manifest = fetchPreviousNonce (some pm)
    simp only [fetchPreviousNonce]
    rw [h1, h2]

/-- Witness for C10: nonce 42 (number) against nonce "42" (string). -/
theorem C10_nonce_witness :
    getNonce mStr = some ("42") ∧
    getNonce mNum = some (toString (42 : Int)) ∧
    fetchWorkspacesStatus [wNum] (fun _ => some mStr) = ⟨[], [wNum], []⟩ :=
  ⟨C10_nonce_normalization.2.1 mStr ("42") (by decide) (by decide),
   C10_nonce_normalization.2.2.1 mNum 42 (by decide) (by decide),
   C10_nonce_normalization.2.2.2.2 wNum mStr 42 (by decide) (by decide) (by decide)
     (by decide) (by decide)⟩

/-
  Helper lemmas about the interactive decision map.
-/

theorem mapSet_entry_cases {m : DecisionMap} {w : Workspace} {d : Decision} :
    ∀ p ∈ mapSet m w d, p ∈ m ∨ p.2 = d := by
  intro p hp
  unfold mapSet at hp
  split at hp
  · obtain ⟨q, hq, hqe⟩ := List.mem_map.mp hp
    by_cases hqw : (q.1 == w) = true
    · rw [if_pos hqw] at hqe
      right
      rw [← hqe]
    · rw [if_neg hqw] at hqe
      left
      rw [← hqe]
      exact hq
  · rcases List.mem_append.mp hp with h1 | h1
    · exact Or.inl h1
    · right
      simp only [List.mem_singleton] at h1
      rw [h1]

theorem setDecision_no_undecided {m : DecisionMap} {w : Workspace} {d : Decision}
    (h : ∀ p ∈ m, p.2 ≠ Decision.undecided) :
    ∀ p ∈ setDecision m w d, p.2 ≠ Decision.undecided := by
  intro p hp
  unfold setDecision at hp
  split at hp
  · exact h p (List.mem_of_mem_filter hp)
  · next hd =>
    rcases mapSet_entry_cases p hp with h1 | h1
    · exact h p h1
    · rw [h1]
      exact hd

theorem foldl_setDecision_no_undecided :
    ∀ (ops : List (Workspace × Decision)) (m : DecisionMap),
      (∀ p ∈ m, p.2 ≠ Decision.undecided) →
      ∀ p ∈ ops.foldl (fun acc q => setDecision acc q.1 q.2) m, p.2 ≠ Decision.undecided := by
  intro ops
  induction ops with
  | nil => intro m h; simpa using h
  | cons q ops ih =>
    intro m h
    simp only [List.foldl_cons]
    exact ih _ (setDecision_no_undecided h)

theorem applyOps_no_undecided (ops : List (Workspace × Decision)) :
    ∀ p ∈ applyOps ops, p.2 ≠ Decision.undecided :=
  foldl_setDecision_no_undecided ops [] (by simp)

theorem map_fst_update (m : DecisionMap) (w : Workspace) (d : Decision) :
    (m.map (fun p => if p.1 == w then (p.1, d) else p)).map Prod.fst = m.map Prod.fst := by
  induction m with
  | nil => rfl
  | cons q m ih =>
    simp only [List.map_cons, ih]
    congr 1
    by_cases h : (q.1 == w) = true
    · rw [if_pos h]
    · rw [if_neg h]

theorem setDecision_keys_nodup {m : DecisionMap} {w : Workspace} {d : Decision}
    (h : (m.map Prod.fst).Nodup) : ((setDecision m w d).map Prod.fst).Nodup := by
  unfold setDecision
  split
  · exact List.Nodup.sublist (List.Sublist.map _ (List.filter_sublist m)) h
  · unfold mapSet
    split
    · next hany => rw [map_fst_update]; exact h
    · next hany =>
      rw [List.map_append, List.nodup_append]
      refine ⟨h, by simp, ?_⟩
      intro a ha hb
      simp only [List.map_cons, List.map_nil, List.mem_singleton] at hb
      subst hb
      obtain ⟨p, hp, hpa⟩ := List.mem_map.mp ha
      apply hany
      rw [List.any_eq_true]
      exact ⟨p, hp, by rw [beq_iff_eq]; exact hpa⟩

theorem foldl_setDecision_keys_nodup :
    ∀ (ops : List (Workspace × Decision)) (m : DecisionMap),
      (m.map Prod.fst).Nodup →
      ((ops.foldl (fun acc q => setDecision acc q.1 q.2) m).map Prod.fst).Nodup := by
  intro ops
  induction ops with
  | nil => intro m h; simpa using h
  | cons q ops ih =>
    intro m h
    simp only [List.foldl_cons]
    exact ih _ (setDecision_keys_nodup h)

theorem applyOps_keys_nodup (ops : List (Workspace × Decision)) :
    ((applyOps ops).map Prod.fst).Nodup :=
  foldl_setDecision_keys_nodup ops [] (by simp)

/-- Claim C8: after any sequence of setDecision operations the map holds no
undecided entry, recording undecided removes the workspace's entry, and an
absent workspace reads back as undecided. -/
theorem C8_no_undecided_entries :
    (∀ ops : List (Workspace × Decision), ∀ p ∈ applyOps ops, p.2 ≠ Decision.undecided) ∧
    (∀ (m : DecisionMap) (w : Workspace),
      (setDecision m w Decision.undecided).find? (fun p => p.1 == w) = none) ∧
    (∀ (m : DecisionMap) (w : Workspace),
      m.find? (fun p => p.1 == w) = none → readDecision m w = Decision.undecided) := by
  refine ⟨applyOps_no_undecided, ?_, ?_⟩
  · intro m w
    unfold setDecision
    rw [if_pos rfl]
    unfold mapDelete
    rw [List.find?_eq_none]
    intro p hp
    have hne := List.of_mem_filter hp
    simp only [bne_iff_ne, ne_eq] at hne
    simp [hne]
  · intro m w h
    unfold readDecision
    rw [h]

/-- Witness for C8 at concrete maps. -/
theorem C8_witness_concrete :
    ((wA, Decision.major).2 ≠ Decision.undecided) ∧
    (setDecision [] wA Decision.undecided).find? (fun p => p.1 == wA) = none ∧
    readDecision [] wA = Decision.undecided :=
  ⟨C8_no_undecided_entries.1 [(wA, Decision.major)] (wA, Decision.major) (by decide),
   C8_no_undecided_entries.2.1 [] wA,
   C8_no_undecided_entries.2.2 [] wA (by decide)⟩

/-- Claim C3 counterexample: with display rows in declaration order
[wA, wB], entering the decision for wB first and for wA second makes the
finalize loop invoke the apply action for wB before wA -- the loop iterates
the decision map in insertion order (line 289), not in the order of the
status/propagation lists. -/
theorem C3_entry_order_counterexample :
    cexStatus.undecided = [wA, wB] ∧
    (finalizeApplies (applyOps [(wB, Decision.major), (wA, Decision.minor)])).map Prod.fst
      = [wB, wA] ∧
    ([wB, wA] : List Workspace) ≠ [wA, wB] := by decide

/-- Claim C3 amended: on finalize, every entry of the final DecisionMap gets
exactly one apply invocation with its chosen strategy (keys are never
duplicated and no entry is skipped, every entry being non-undecided), and
the invocations run in the map's insertion order -- the order in which
workspaces first received their current decisions. -/
theorem C3_apply_per_entry_insertion_order (ops : List (Workspace × Decision)) :
    finalizeApplies (applyOps ops) = applyOps ops ∧
    ((applyOps ops).map Prod.fst).Nodup := by
  constructor
  · unfold finalizeApplies
    rw [List.filter_eq_self]
    intro p hp
    have hne := applyOps_no_undecided ops p hp
    simpa [bne_iff_ne] using hne
  · exact applyOps_keys_nodup ops

/-- Claim C2 counterexample: decided = [wA] is a subset of decided' =
[wA, wB], yet the pair (wB, wA) emitted for the smaller set is not emitted
for the larger one (with empty declined and override sets): once wB itself
is decided, line 412 skips it, so enlarging the decided set loses pairs and
propagation is not monotonic in its decided argument. -/
theorem C2_monotonicity_counterexample :
    (∀ w ∈ cexDecidedSmall, w ∈ cexDecidedBig) ∧
    fetchUndecidedDependentWorkspaces cexDecidedSmall [] cexProj [] = some [(wB, wA)] ∧
    fetchUndecidedDependentWorkspaces cexDecidedBig [] cexProj [] = some [] ∧
    ((wB, wA) ∉ ([] : List (Workspace × Workspace))) := by decide

theorem processDeps_mono {d1 d2 : List Workspace} (proj : Project) (w : Workspace)
    (hsub : ∀ x ∈ d1, x ∈ d2)
    (hinj : ∀ x ∈ d2, ∀ y ∈ d2, x.locatorHash = y.locatorHash → x = y) :
    ∀ (ds : List Descriptor) (ps : List (Workspace × Workspace)),
      processDeps d1 proj w ds = some ps →
      ∃ ps', processDeps d2 proj w ds = some ps' ∧ ∀ p ∈ ps, p ∈ ps' := by
  intro ds
  induction ds with
  | nil =>
    intro ps hps
    simp only [processDeps] at hps ⊢
    injection hps with h1
    subst h1
    exact ⟨[], rfl, by simp⟩
  | cons d ds ih =>
    intro ps hps
    simp only [processDeps] at hps
    cases hres : proj.storedResolutions d.descriptorHash with
    | none =>
      simp only [hres] at hps
      exact Option.noConfusion hps
    | some res =>
      simp only [hres] at hps
      by_cases hpk : proj.storedPackages res = true
      · rw [if_pos hpk] at hps
        cases hrec : processDeps d1 proj w ds with
        | none => rw [hrec] at hps; simp at hps
        | some rest =>
          simp only [hrec, Option.map_some', Option.some.injEq] at hps
          obtain ⟨rest', hrest', hsubr⟩ := ih rest hrec
          cases hl : lookupHash d1 res with
          | some dep =>
            simp only [hl] at hps
            subst hps
            refine ⟨(w, dep) :: rest', ?_, ?_⟩
            · simp only [processDeps, hres]
              rw [if_pos hpk, hrest']
              simp only [Option.map_some', lookupHash_mono hsub hinj hl]
            · intro p hp
              rcases List.mem_cons.mp hp with hp | hp
              · exact hp ▸ List.mem_cons_self _ _
              · exact List.mem_cons_of_mem _ (hsubr p hp)
          | none =>
            simp only [hl] at hps
            subst hps
            cases hl2 : lookupHash d2 res with
            | some dep2 =>
              refine ⟨(w, dep2) :: rest', ?_, ?_⟩
              · simp only [processDeps, hres]
                rw [if_pos hpk, hrest']
                simp only [Option.map_some', hl2]
              · intro p hp
                exact List.mem_cons_of_mem _ (hsubr p hp)
            | none =>
              refine ⟨rest', ?_, hsubr⟩
              simp only [processDeps, hres]
              rw [if_pos hpk, hrest']
              simp only [Option.map_some', hl2]
      · rw [if_neg hpk] at hps
        exact Option.noConfusion hps

theorem fudwGo_mono (decided decided' declined incl : List Workspace) (proj : Project)
    (hsub : ∀ w ∈ decided, w ∈ decided')
    (hnew : ∀ w ∈ decided', w ∉ decided → w ∈ incl)
    (hinj : ∀ x ∈ proj.workspaces ++ decided', ∀ y ∈ proj.workspaces ++ decided',
      x.locatorHash = y.locatorHash → x = y) :
    ∀ l : List Workspace, (∀ w ∈ l, w ∈ proj.workspaces) →
      ∀ ps, fudwGo decided declined incl proj l = some ps →
      ∃ ps', fudwGo decided' declined incl proj l = some ps' ∧ ∀ p ∈ ps, p ∈ ps' := by
  intro l
  induction l with
  | nil =>
    intro _ ps hps
    simp only [fudwGo] at hps ⊢
    injection hps with h1
    subst h1
    exact ⟨[], rfl, by simp⟩
  | cons w ws ih =>
    intro hl ps hps
    have hw : w ∈ proj.workspaces := hl w (List.mem_cons_self _ _)
    have hws : ∀ x ∈ ws, x ∈ proj.workspaces := fun x hx => hl x (List.mem_cons_of_mem _ hx)
    have hinj' : ∀ x ∈ decided', ∀ y ∈ decided', x.locatorHash = y.locatorHash → x = y :=
      fun x hx y hy =>
        hinj x (List.mem_append_right _ hx) y (List.mem_append_right _ hy)
    have hskip_iff :
        (w ∉ incl ∧
          (hasHash declined w.locatorHash = true ∨ hasHash decided w.locatorHash = true)) ↔
        (w ∉ incl ∧
          (hasHash declined w.locatorHash = true ∨ hasHash decided' w.locatorHash = true)) := by
      constructor
      · rintro ⟨hni, hor⟩
        refine ⟨hni, ?_⟩
        rcases hor with h | h
        · exact Or.inl h
        · exact Or.inr (hasHash_mono hsub h)
      · rintro ⟨hni, hor⟩
        refine ⟨hni, ?_⟩
        rcases hor with h | h
        · exact Or.inl h
        · obtain ⟨d', -, hm', hh'⟩ := hasHash_exists h
          have hwd : w = d' :=
            hinj w (List.mem_append_left _ hw) d' (List.mem_append_right _ hm') hh'.symm
          by_cases hd : w ∈ decided
          · exact Or.inr (hasHash_of_mem hd)
          · have hwin : w ∈ decided' := by rw [hwd]; exact hm'
            exact absurd (hnew w hwin hd) hni
    simp only [fudwGo] at hps ⊢
    by_cases hskip : w ∉ incl ∧
        (hasHash declined w.locatorHash = true ∨ hasHash decided w.locatorHash = true)
    · rw [if_pos hskip] at hps
      rw [if_pos (hskip_iff.mp hskip)]
      exact ih hws ps hps
    · rw [if_neg hskip] at hps
      rw [if_neg (fun hc => hskip (hskip_iff.mpr hc))]
      by_cases hp : w.manifest.isPrivate = true
      · rw [if_pos hp] at hps ⊢
        exact ih hws ps hps
      · rw [if_neg hp] at hps ⊢
        by_cases hv : w.manifest.version = none
        · rw [if_pos hv] at hps ⊢
          exact ih hws ps hps
        · rw [if_neg hv] at hps ⊢
          cases hpd : processDeps decided proj w w.dependencies with
          | none => rw [hpd] at hps; simp at hps
          | some pds =>
            rw [hpd] at hps
            cases hrec : fudwGo decided declined incl proj ws with
            | none => rw [hrec] at hps; simp at hps
            | some rest =>
              rw [hrec] at hps
              have hps' : some (pds ++ rest) = some ps := hps
              injection hps' with h4
              subst h4
              obtain ⟨pds', hpd', hsubp⟩ :=
                processDeps_mono proj w hsub hinj' w.dependencies pds hpd
              obtain ⟨rest', hrest', hsubr⟩ := ih hws rest hrec
              rw [hpd', hrest']
              refine ⟨pds' ++ rest', rfl, ?_⟩
              intro p hp'
              rcases List.mem_append.mp hp' with h | h
              · exact List.mem_append_left _ (hsubp p h)
              · exact List.mem_append_right _ (hsubr p h)

/-- Claim C2 amended: propagation is monotonic in its decided argument
provided every workspace added to the larger decided set is in the override
(exclude) set -- which is how the interactive session calls it, passing the
decision map's keys -- and workspace identities are not duplicated.  Then
every pair emitted for the smaller decided set is also emitted for the
larger one. -/
theorem C2_monotone_under_exclude (decided decided' declined incl : List Workspace)
    (proj : Project) (ps : List (Workspace × Workspace))
    (hsub : ∀ w ∈ decided, w ∈ decided')
    (hnew : ∀ w ∈ decided', w ∉ decided → w ∈ incl)
    (hinj : ∀ x ∈ proj.workspaces ++ decided', ∀ y ∈ proj.workspaces ++ decided',
      x.locatorHash = y.locatorHash → x = y)
    (hrun : fetchUndecidedDependentWorkspaces decided declined proj incl = some ps) :
    ∃ ps', fetchUndecidedDependentWorkspaces decided' declined proj incl = some ps' ∧
      ∀ p ∈ ps, p ∈ ps' :=
  fudwGo_mono decided decided' declined incl proj hsub hnew hinj
    proj.workspaces (fun _ h => h) ps hrun

/-- Witness for the amended C2: enlarging decided from [wA] to [wA, wB]
while keeping wB in the override set preserves the emitted pair. -/
theorem C2_monotone_witness :
    ∃ ps', fetchUndecidedDependentWorkspaces cexDecidedBig [] cexProj [wB] = some ps' ∧
      ∀ p ∈ [(wB, wA)], p ∈ ps' :=
  C2_monotone_under_exclude cexDecidedSmall cexDecidedBig [] [wB] cexProj [(wB, wA)]
    (by decide) (by decide) (by decide) (by decide)

end VersionCheck
